import Mathlib

/-!
Verification of the PPG signal-processing subsystem.

This file gives a shallow embedding, in Lean 4, of the algorithmic core of
the repository: the preprocessor (`preprocessPPG` with `lfilter`,
`filtfilt`, `gaussianFilter1d`), the peak detector (`findPeaks`), the
feature extractor (`extractFeatures` with `getWelchLF`), the heuristic
vitals estimator (`performMathEstimation`), the calibration logic of the
model tab, and the session-id allocator (`generateNextId`).

Modelling conventions:
* JavaScript numbers are modelled by exact arithmetic: `ℝ` where the code
  evaluates transcendental functions (`Math.sqrt`, `Math.exp`,
  `Math.cos`, `Math.sin`), and `ℚ` where the code only uses field
  operations, so that concrete runs are decidable.
* A possibly-NaN input sample is modelled as `Option ℝ` (`none` = NaN);
  inside the numeric pipeline NaN cannot arise in exact arithmetic, so the
  defensive `isNaN` re-checks of the source are noted in comments where
  they are dropped.
* JavaScript array reads `a[i]` are modelled by `List.getD i 0`; all reads
  performed by the source are in bounds, so the default is never observed.
* `Array.prototype.sort` (stable since ES2019) is modelled by the stable
  `List.insertionSort`.
-/

namespace PPG

/-- `_mean` from `lib/signal-processing.ts`:
`arr.length ? arr.reduce((a, b) => a + b, 0) / arr.length : 0`. -/
noncomputable def _mean (arr : List ℝ) : ℝ :=
  if arr.length = 0 then 0 else arr.sum / arr.length

/-- `_min` from the source: `arr.length ? Math.min(...arr) : 0`. -/
noncomputable def _min (arr : List ℝ) : ℝ :=
  match arr with
  | [] => 0
  | h :: t => t.foldl min h

/-- `_max` from the source: `arr.length ? Math.max(...arr) : 0`. -/
noncomputable def _max (arr : List ℝ) : ℝ :=
  match arr with
  | [] => 0
  | h :: t => t.foldl max h

/-- `_std` from the source: population standard deviation,
`Math.sqrt(arr.reduce((a, b) => a + Math.pow(b - m, 2), 0) / arr.length)`
with an early `0` for lists of length ≤ 1. -/
noncomputable def _std (arr : List ℝ) : ℝ :=
  if arr.length ≤ 1 then 0
  else Real.sqrt ((arr.map (fun b => (b - _mean arr) ^ 2)).sum / arr.length)

/-- `gradient` from the source: central differences with one-sided
differences at the two ends; all-zero output for lists shorter than 2. -/
noncomputable def gradient (data : List ℝ) : List ℝ :=
  let n := data.length
  if n < 2 then List.replicate n 0
  else
    (List.range n).map (fun (i : ℕ) =>
      if i = 0 then data.getD 1 0 - data.getD 0 0
      else if i = n - 1 then data.getD (n - 1) 0 - data.getD (n - 2) 0
      else (data.getD (i + 1) 0 - data.getD (i - 1) 0) / 2)

/-- `trapz` from the source: `sum += 0.5 * (y[i] + y[i+1])` over consecutive
pairs. -/
noncomputable def trapz (y : List ℝ) : ℝ :=
  ((y.zip y.tail).map (fun p => 0.5 * (p.1 + p.2))).sum

/-- Strict-interior local-maximum test used by `findPeaks`:
`data[i] > data[i-1] && data[i] > data[i+1]` for `1 ≤ i ≤ data.length - 2`. -/
def isLocalMax {α : Type} [LinearOrder α] [Inhabited α] (data : List α) (i : ℕ) : Bool :=
  decide (1 ≤ i) && decide (i + 1 < data.length) &&
    decide (data.getD (i - 1) default < data.getD i default) &&
    decide (data.getD (i + 1) default < data.getD i default)

/-- Candidate peaks of `findPeaks`: the loop
`for (i = 1; i < data.length - 1; i++)` collecting strict local maxima, in
ascending index order. -/
def peakCandidates {α : Type} [LinearOrder α] [Inhabited α] (data : List α) : List ℕ :=
  (List.range data.length).filter (fun i => isLocalMax data i)

/-- Greedy suppression loop of `findPeaks`:
`if (!kept.some(k => Math.abs(k - c) < distance)) kept.push(c)`. -/
def greedyKeep (distance : ℕ) : List ℕ → List ℕ → List ℕ
  | kept, [] => kept
  | kept, c :: cs =>
      if kept.any (fun k => ((k : ℤ) - (c : ℤ)).natAbs < distance) then
        greedyKeep distance kept cs
      else
        greedyKeep distance (kept ++ [c]) cs

/-- `findPeaks` from the source: strict interior local maxima, stably
sorted by descending amplitude (`candidates.sort((a,b) => data[b] - data[a])`),
greedily thinned so that no two kept indices are closer than `distance`,
and finally returned in ascending index order. -/
def findPeaks {α : Type} [LinearOrder α] [Inhabited α] (data : List α) (distance : ℕ) : List ℕ :=
  let sorted := (peakCandidates data).insertionSort
    (fun a b => data.getD b default ≤ data.getD a default)
  (greedyKeep distance [] sorted).insertionSort (fun a b => a ≤ b)

/-- The Gaussian kernel built by `gaussianFilter1d`:
`for (i = -radius; i <= radius; i++) kernel.push(Math.exp(-(i*i)/(2*sigma*sigma)))`
with `radius = Math.ceil(4 * sigma)`.  For `radius < 0` the loop body never
runs, so the kernel is empty; `(2 * radius + 1).toNat` reproduces that. -/
noncomputable def gaussKernel (sigma : ℝ) : List ℝ :=
  let radius : ℤ := ⌈4 * sigma⌉
  (List.range (2 * radius + 1).toNat).map (fun (j : ℕ) =>
    let i : ℝ := ((j : ℤ) - radius : ℤ)
    Real.exp (-(i * i) / (2 * sigma * sigma)))

/-- Clamped index used by `gaussianFilter1d`:
`Math.min(Math.max(i + (j - radius), 0), data.length - 1)`. -/
def clampIdx (z : ℤ) (len : ℕ) : ℕ :=
  (min (max z 0) ((len : ℤ) - 1)).toNat

/-- `gaussianFilter1d` from the source: discrete Gaussian smoothing with a
kernel normalised to sum 1 and edge indices clamped to the valid range. -/
noncomputable def gaussianFilter1d (data : List ℝ) (sigma : ℝ) : List ℝ :=
  let radius : ℤ := ⌈4 * sigma⌉
  let kernel := gaussKernel sigma
  let s := kernel.sum
  let normKernel := kernel.map (fun k => k / s)
  (List.range data.length).map (fun (i : ℕ) =>
    ((List.range normKernel.length).map (fun (j : ℕ) =>
      data.getD (clampIdx ((i : ℤ) + ((j : ℤ) - radius)) data.length) 0 *
        normKernel.getD j 0)).sum)

/-- Hann window of `getWelchLF`:
`0.5 * (1 - Math.cos((2 * Math.PI * i) / (nperseg - 1)))`. -/
noncomputable def hannWindow (n : ℕ) : List ℝ :=
  (List.range n).map (fun (i : ℕ) =>
    0.5 * (1 - Real.cos ((2 * Real.pi * i) / ((n : ℝ) - 1))))

/-- One bin of the brute-force DFT periodogram of `getWelchLF`:
squared magnitude `real*real + imag*imag` of bin `k` of the windowed
segment. -/
noncomputable def segPower (segment window : List ℝ) (fftSize k : ℕ) : ℝ :=
  let angularFreq : ℝ := -2 * Real.pi * k / fftSize
  let re := ((List.range fftSize).map (fun (n : ℕ) =>
    segment.getD n 0 * window.getD n 0 * Real.cos (angularFreq * n))).sum
  let im := ((List.range fftSize).map (fun (n : ℕ) =>
    segment.getD n 0 * window.getD n 0 * Real.sin (angularFreq * n))).sum
  re * re + im * im

/-- `getWelchLF` from the source: Welch-style low-frequency band power with
50 % overlapping Hann windows, one-sided-spectrum doubling of the interior
bins, and summation over bins with frequency in [0.01 Hz, 0.15 Hz].
`fs * winSumSq || 1` is embedded as an explicit zero test. -/
noncomputable def getWelchLF (signal : List ℝ) (fs : ℝ) : ℝ :=
  let nperseg := min 256 signal.length
  if nperseg < 32 then 0
  else
    let step := nperseg / 2
    let nWindows := (signal.length - nperseg) / step + 1
    if nWindows < 1 then 0   -- dead in ℕ arithmetic; kept from the source
    else
      let window := hannWindow nperseg
      let nBins := nperseg / 2 + 1
      let psdAcc : ℕ → ℝ := fun k =>
        ((List.range nWindows).map (fun (w : ℕ) =>
          segPower ((signal.drop (w * step)).take nperseg) window nperseg k)).sum
      let winSumSq := (window.map (fun b => b * b)).sum
      let denom := fs * winSumSq
      let scale := 1 / (if denom = 0 then 1 else denom)
      let avgPSD : ℕ → ℝ := fun k => psdAcc k / (nWindows : ℝ) * scale
      let doubled : ℕ → ℝ := fun k =>
        if 1 ≤ k ∧ k < nBins - 1 then 2 * avgPSD k else avgPSD k
      let freqRes := fs / (nperseg : ℝ)
      ((List.range nBins).map (fun (k : ℕ) =>
        if 0.01 ≤ (k : ℝ) * freqRes ∧ (k : ℝ) * freqRes ≤ 0.15 then doubled k
        else 0)).sum

/-- One iteration of the `lfilter` loop body: FIR and IIR accumulation
over the guards `n - i >= 0` and `1 <= j`, `n - j >= 0`, division by
`a[0]`, then the clamp `if (Math.abs(y[n]) > 1e9) y[n] = 0`.  The `safe()`
wrapper of the source only converts NaN reads to 0 and is the identity in
exact arithmetic. -/
noncomputable def lfilterStep (b a x : List ℝ) (ys : List ℝ) (n : ℕ) : List ℝ :=
  let fir := ((List.range b.length).map (fun (i : ℕ) =>
    if i ≤ n then b.getD i 0 * x.getD (n - i) 0 else 0)).sum
  let iir := ((List.range a.length).map (fun (j : ℕ) =>
    if 1 ≤ j ∧ j ≤ n then a.getD j 0 * ys.getD (n - j) 0 else 0)).sum
  let yn := (fir - iir) / a.getD 0 0
  ys ++ [if 1e9 < |yn| then 0 else yn]

/-- `lfilter` from the source (Direct Form I recursive filter): the loop
`for (n = 0; n < x.length; n++)` building the output sample by sample. -/
noncomputable def lfilter (b a x : List ℝ) : List ℝ :=
  (List.range x.length).foldl (lfilterStep b a x) []

/-- `filtfilt` from the source: forward pass, reverse, second pass, reverse
again (zero-phase filtering). -/
noncomputable def filtfilt (b a x : List ℝ) : List ℝ :=
  (lfilter b a (lfilter b a x).reverse).reverse

/-- The fixed bandpass numerator coefficients `b` of `preprocessPPG`. -/
noncomputable def bCoeffs : List ℝ :=
  [0.032623, 0.0, -0.130493, 0.0, 0.195740, 0.0, -0.130493, 0.0, 0.032623]

/-- The fixed bandpass denominator coefficients `a` of `preprocessPPG`. -/
noncomputable def aCoeffs : List ℝ :=
  [1.0, -4.8465, 10.6666, -14.1672, 12.0620, -6.6582, 2.3387, -0.4746, 0.0433]

/-- The conditional trim step of `preprocessPPG`: drop `TRIM_SEC * FS = 90`
samples from each end, but only when `signal.length > 2.5 * 90`. -/
noncomputable def trimSignal (signal : List ℝ) : List ℝ :=
  if (2.5 : ℝ) * 90 < (signal.length : ℝ) then
    (signal.drop 90).take (signal.length - 180)
  else signal

/-- `preprocessPPG` from the source.  A raw sample is `Option ℝ` with
`none` playing the role of NaN.  The stability guard of the source is
`isNaN(maxVal) || maxVal > 1e9`; in exact arithmetic `maxVal` is never NaN,
so only the magnitude test remains. -/
noncomputable def preprocessPPG (raw : List (Option ℝ)) : List ℝ :=
  if raw.length = 0 then []
  else if raw.any (fun v => v.isNone) then raw.map (fun v => v.getD 0)
  else
    let x := raw.map (fun v => v.getD 0)
    let filtered := filtfilt bCoeffs aCoeffs x
    let maxVal := _max (filtered.map (fun v => |v|))
    let signal := if 1e9 < maxVal then x else filtered
    trimSignal (gaussianFilter1d signal 2)

/-- The four named recoverable errors raised by `extractFeatures`. -/
inductive FeatError : Type
  | signalTooShort
  | signalFlatline
  | insufficientPeaks
  | noValleys
deriving DecidableEq

/-- The 18-entry feature list built by `extractFeatures` once all guards
have passed, in source order:
RI, AIx, sys_slope, dia_slope, PW50, PW75, HR, HRV, AUC, b/a, c/a, d/a,
e/a, stiffness, mean, std, baseline trend, spectral LF power.
`safeP/safeV/safePi/safeVi` are the clamping accessors of the source. -/
noncomputable def featureVector (ppg : List ℝ) (peaks valleys : List ℕ) : List ℝ :=
  let peakValues := peaks.map (fun i => ppg.getD i 0)
  let peak_val := _mean peakValues
  let eps : ℝ := 1e-6
  let safeP : ℕ → ℝ := fun idx => ppg.getD (peaks.getD (min idx (peaks.length - 1)) 0) 0
  let safeV : ℕ → ℝ := fun idx => ppg.getD (valleys.getD (min idx (valleys.length - 1)) 0) 0
  let safePi : ℕ → ℕ := fun idx => peaks.getD (min idx (peaks.length - 1)) 0
  let safeVi : ℕ → ℕ := fun idx => valleys.getD (min idx (valleys.length - 1)) 0
  let RI := safeV 0 / (peak_val + eps)
  let AIx := (_max ppg - _min ppg) / (peak_val + eps)
  let sys_slope := (safeP 0 - safeV 0) / ((((safePi 0 : ℤ) - (safeVi 0 : ℤ)).natAbs : ℝ) + eps)
  let dia_slope := (safeP 1 - safeV 0) / ((((safePi 1 : ℤ) - (safeVi 0 : ℤ)).natAbs : ℝ) + eps)
  let PW50 := ((ppg.filter (fun v => 0.5 * peak_val < v)).length : ℝ) / 30
  let PW75 := ((ppg.filter (fun v => 0.75 * peak_val < v)).length : ℝ) / 30
  let HR := (peaks.length : ℝ) * (60 / ((ppg.length : ℝ) / 30))
  let RR_intervals := (peaks.zip peaks.tail).map (fun p => ((p.2 : ℝ) - (p.1 : ℝ)) / 30)
  let HRV := if 0 < RR_intervals.length then _std RR_intervals else 0
  let AUC := trapz ppg
  let d2 := gradient (gradient ppg)
  let d2_norm := d2.map (fun x => (x - _mean d2) / (_std d2 + eps))
  let sp := findPeaks d2_norm 8
  let lm :=
    if 5 ≤ sp.length then
      let a := d2_norm.getD (sp.getD 0 0) 0
      let b := d2_norm.getD (sp.getD 1 0) 0
      let c := d2_norm.getD (sp.getD 2 0) 0
      let d := d2_norm.getD (sp.getD 3 0) 0
      let e := d2_norm.getD (sp.getD 4 0) 0
      (b / (a + eps), c / (a + eps), d / (a + eps), e / (a + eps), |a - b|)
    else ((0 : ℝ), (0 : ℝ), (0 : ℝ), (0 : ℝ), (0 : ℝ))
  let smooth5 := gaussianFilter1d ppg 5
  let baseline_trend := _mean (gradient smooth5)
  let LF := getWelchLF ppg 30
  [RI, AIx, sys_slope, dia_slope, PW50, PW75, HR, HRV, AUC,
   lm.1, lm.2.1, lm.2.2.1, lm.2.2.2.1, lm.2.2.2.2,
   _mean ppg, _std ppg, baseline_trend, LF]

/-- `extractFeatures` from the source: the four named guards in source
order, then the fully populated 18-entry feature vector. -/
noncomputable def extractFeatures (ppg : List ℝ) : Except FeatError (List ℝ) :=
  if ppg.length < 30 then .error .signalTooShort
  else if _std ppg < 1e-4 then .error .signalFlatline
  else
    let peaks := findPeaks ppg 10
    let valleys := findPeaks (ppg.map (fun x => -x)) 10
    if peaks.length < 2 then .error .insufficientPeaks
    else if valleys.length < 1 then .error .noValleys
    else .ok (featureVector ppg peaks valleys)

/-- The error component of an `extractFeatures` run (`none` on success). -/
def errOf {ε α : Type} : Except ε α → Option ε
  | .error e => some e
  | .ok _ => none

/-- JavaScript `x || d` for a number `x`: the default replaces `0` (and
NaN, which has no counterpart in exact arithmetic). -/
def jsOr (x d : ℚ) : ℚ := if x = 0 then d else x

/-- JavaScript `Math.round`: round half toward positive infinity. -/
def jsRound (x : ℚ) : ℤ := ⌊x + 1 / 2⌋

/-- `Math.min(Math.max(x, lo), hi)` as used by the estimator clamps. -/
def clampQ (x lo hi : ℚ) : ℚ := min (max x lo) hi

/-- Result record of `performMathEstimation`; all three fields are
integer-rounded by the source. -/
structure EstimationResult : Type where
  sbp : ℤ
  dbp : ℤ
  glucose : ℤ
deriving DecidableEq

/-- `performMathEstimation` from the source: heuristic SBP/DBP/glucose from
features 0 (RI), 1 (AIx), 6 (HR) and 13 (stiffness) plus demographics,
with falsy-value defaults, `weight / (h_m * h_m || 1)` BMI, fixed linear
formulas, range clamps and rounding.  It is a total function: the source
never throws here. -/
def performMathEstimation (features : List ℚ) (age height weight : ℚ) :
    EstimationResult :=
  let RI := jsOr (features.getD 0 0) 0.3
  let AIx := jsOr (features.getD 1 0) (-0.5)
  let HR := jsOr (features.getD 6 0) 75
  let STIFF := jsOr (features.getD 13 0) 0.1
  let h_m := height / 100
  let bmi := weight / (if h_m * h_m = 0 then 1 else h_m * h_m)
  let est_sbp := 105 + 0.5 * age + 0.5 * bmi + 0.2 * HR - 20 * RI
  let est_dbp := 65 + 0.2 * age + 0.3 * bmi + 0.15 * HR - 10 * RI + 10 * AIx
  let est_glu := 85 + 0.8 * bmi + 0.2 * age + 100 * STIFF - 0.5 * HR
  { sbp := jsRound (clampQ est_sbp 90 180)
    dbp := jsRound (clampQ est_dbp 60 120)
    glucose := jsRound (clampQ est_glu 70 250) }

/-- One vitals triple (sbp, dbp, glu) as used by the model tab. -/
structure Vitals : Type where
  sbp : ℚ
  dbp : ℚ
  glu : ℚ
deriving DecidableEq

/-- The display step of `runModel`:
`pred = { sbp: outputData[0] + offsets.sbp, ... }` — the stored offset is
added to each raw channel. -/
def applyOffsets (raw offsets : Vitals) : Vitals :=
  ⟨raw.sbp + offsets.sbp, raw.dbp + offsets.dbp, raw.glu + offsets.glu⟩

/-- The offset computation of `calibrate`:
`newOffsets = { sbp: refSBP - result.raw.sbp, ... }`. -/
def calibOffsets (refv raw : Vitals) : Vitals :=
  ⟨refv.sbp - raw.sbp, refv.dbp - raw.dbp, refv.glu - raw.glu⟩

/-- The part of the model-tab component state that calibration touches:
the persisted offsets and the raw output of the latest model run. -/
structure ModelTabState : Type where
  offsets : Vitals
  lastRaw : Option Vitals
deriving DecidableEq

/-- Model-tab events: a model run producing a raw output triple, or a
calibration against a reference triple. -/
inductive ModelEvent : Type
  | modelRun (raw : Vitals)
  | calibrateWith (refv : Vitals)

/-- State transition of the model tab.  `calibrate` starts with
`if (!result) return`, so calibration without a previous run is a no-op;
a model run stores its raw output and leaves the offsets untouched. -/
def stepModelTab (s : ModelTabState) : ModelEvent → ModelTabState
  | .modelRun raw => ⟨s.offsets, some raw⟩
  | .calibrateWith refv =>
      match s.lastRaw with
      | none => s
      | some raw => ⟨calibOffsets refv raw, s.lastRaw⟩

/-- Run a list of model-tab events from a starting state. -/
def runEvents (s : ModelTabState) (evs : List ModelEvent) : ModelTabState :=
  evs.foldl stepModelTab s

/-- The vitals displayed for a raw model output under the current state:
raw output plus stored offsets. -/
def displayedVitals (s : ModelTabState) (raw : Vitals) : Vitals :=
  applyOffsets raw s.offsets

/-- The slice of a stored `RecordingSession` consulted by
`generateNextId`: only the `id` string. -/
structure Session : Type where
  id : String

/-- Decimal digits of a natural number, most significant first, as
produced by JavaScript `Number.prototype.toString()` (radix 10). -/
def natDigits (n : ℕ) : List Char :=
  if _h : n < 10 then [Nat.digitChar n]
  else natDigits (n / 10) ++ [Nat.digitChar (n % 10)]
termination_by n
decreasing_by exact Nat.div_lt_self (by omega) (by omega)

/-- JavaScript `i.toString()` for an integer `i`. -/
def jsIntToString (i : ℤ) : String :=
  if i < 0 then String.mk ('-' :: natDigits i.natAbs)
  else String.mk (natDigits i.toNat)

/-- JavaScript `String.prototype.padStart(targetLen, c)`. -/
def padStart (s : String) (targetLen : ℕ) (c : Char) : String :=
  String.mk (List.replicate (targetLen - s.length) c ++ s.data)

/-- Decimal digit test for `parseInt` (codepoints 48–57). -/
def isDigitChar (c : Char) : Bool :=
  decide (48 ≤ c.toNat) && decide (c.toNat ≤ 57)

/-- Value of a list of decimal digit characters, most significant first. -/
def digitsToNat (l : List Char) : ℕ :=
  l.foldl (fun acc c => 10 * acc + (c.toNat - 48)) 0

/-- JavaScript `parseInt(s, 10)` on the character list of the string,
restricted to what session ids exercise: an optional leading minus sign
followed by a longest decimal-digit prefix; `none` (NaN) when no digit is
found.  Leading whitespace and a leading `+` are not modelled — no caller
produces them. -/
def parseIntChars (l : List Char) : Option ℤ :=
  match l with
  | [] => none
  | c :: rest =>
      if c = '-' then
        let ds := rest.takeWhile isDigitChar
        if ds.isEmpty then none else some (-(digitsToNat ds : ℤ))
      else
        let ds := (c :: rest).takeWhile isDigitChar
        if ds.isEmpty then none else some ((digitsToNat ds : ℤ))

/-- JavaScript `parseInt(s, 10)` (see `parseIntChars`). -/
def parseIntJs (s : String) : Option ℤ := parseIntChars s.data

/-- `SignalStorage.generateNextId` from the source: `"0001"` when no
session or no numerically parseable id exists, otherwise
`(maxId + 1).toString().padStart(4, '0')` where `maxId = Math.max(...ids)`. -/
def generateNextId (sessions : List Session) : String :=
  if sessions.length = 0 then "0001"
  else
    match sessions.filterMap (fun s => parseIntJs s.id) with
    | [] => "0001"
    | h :: t => padStart (jsIntToString (t.foldl max h + 1)) 4 '0'

/-! ### Helper lemmas about rounding, clamping and list updates -/

lemma le_jsRound (z : ℤ) (x : ℚ) (h : (z : ℚ) ≤ x) : z ≤ jsRound x := by
  rw [jsRound, Int.le_floor]; linarith

lemma jsRound_le (z : ℤ) (x : ℚ) (h : x ≤ (z : ℚ)) : jsRound x ≤ z := by
  have h1 : ⌊x + 1 / 2⌋ ≤ ⌊(z : ℚ) + 1 / 2⌋ := Int.floor_le_floor (by linarith)
  have h2 : ⌊(z : ℚ) + 1 / 2⌋ = z := by
    rw [add_comm, Int.floor_add_int]
    norm_num
  rw [jsRound]; omega

lemma clampQ_lb (x lo hi : ℚ) (h : lo ≤ hi) : lo ≤ clampQ x lo hi :=
  le_min (le_max_right x lo) h

lemma clampQ_ub (x lo hi : ℚ) : clampQ x lo hi ≤ hi := min_le_right _ _

lemma getD_set_ne (l : List ℚ) (i j : ℕ) (v : ℚ) (h : i ≠ j) :
    (l.set i v).getD j 0 = l.getD j 0 := by
  simp [List.getD_eq_getElem?_getD, List.getElem?_set_ne h]

lemma jsOr_getD_set_self (l : List ℚ) (i : ℕ) (v : ℚ) (h0 : l.getD i 0 = 0)
    (hv : v ≠ 0) : jsOr ((l.set i v).getD i 0) v = jsOr (l.getD i 0) v := by
  rw [h0]
  rcases lt_or_ge i l.length with hi | hi
  · simp [jsOr, List.getD_eq_getElem?_getD, List.getElem?_set_self hi, hv]
  · rw [List.set_eq_of_length_le (by omega)]
    rw [h0]

/-! ### Helper lemmas about the greedy peak-suppression loop -/

/-- The minimum-separation relation maintained by the greedy loop of
`findPeaks`. -/
def FarApart (d : ℕ) (a b : ℕ) : Prop := d ≤ ((a : ℤ) - (b : ℤ)).natAbs

lemma mem_greedyKeep (d : ℕ) :
    ∀ (cs kept : List ℕ) (x : ℕ), x ∈ greedyKeep d kept cs → x ∈ kept ∨ x ∈ cs := by
  intro cs
  induction cs with
  | nil => intro kept x hx; exact Or.inl hx
  | cons c cs ih =>
      intro kept x hx
      rw [greedyKeep] at hx
      split at hx
      · rcases ih _ _ hx with h | h
        · exact Or.inl h
        · exact Or.inr (List.mem_cons_of_mem _ h)
      · rcases ih _ _ hx with h | h
        · rcases List.mem_append.mp h with h | h
          · exact Or.inl h
          · simp at h; exact Or.inr (h ▸ List.mem_cons_self c cs)
        · exact Or.inr (List.mem_cons_of_mem _ h)

lemma kept_mem_greedyKeep (d : ℕ) :
    ∀ (cs kept : List ℕ) (x : ℕ), x ∈ kept → x ∈ greedyKeep d kept cs := by
  intro cs
  induction cs with
  | nil => intro kept x hx; exact hx
  | cons c cs ih =>
      intro kept x hx
      rw [greedyKeep]
      split
      · exact ih _ _ hx
      · exact ih _ _ (List.mem_append.mpr (Or.inl hx))

lemma greedyKeep_pairwise (d : ℕ) :
    ∀ (cs kept : List ℕ), kept.Pairwise (FarApart d) →
      (greedyKeep d kept cs).Pairwise (FarApart d) := by
  intro cs
  induction cs with
  | nil => intro kept h; exact h
  | cons c cs ih =>
      intro kept h
      rw [greedyKeep]
      split
      · exact ih _ h
      · rename_i hany
        refine ih _ ?_
        rw [List.pairwise_append]
        refine ⟨h, List.pairwise_singleton _ _, ?_⟩
        intro a ha b hb
        simp only [List.mem_singleton] at hb
        subst hb
        simp only [List.any_eq_true, not_exists, not_and, decide_eq_true_eq] at hany
        have := hany a ha
        unfold FarApart
        omega

lemma greedyKeep_nodup (d : ℕ) :
    ∀ (cs kept : List ℕ), cs.Nodup → kept.Nodup → (∀ x ∈ kept, x ∉ cs) →
      (greedyKeep d kept cs).Nodup := by
  intro cs
  induction cs with
  | nil => intro kept _ h _; exact h
  | cons c cs ih =>
      intro kept hcs hk hdisj
      rw [greedyKeep]
      have hcs' := (List.nodup_cons.mp hcs).2
      have hcnotcs := (List.nodup_cons.mp hcs).1
      split
      · exact ih _ hcs' hk (fun x hx => fun hmem =>
          hdisj x hx (List.mem_cons_of_mem _ hmem))
      · refine ih _ hcs' ?_ ?_
        · rw [List.nodup_append]
          refine ⟨hk, List.nodup_singleton _, ?_⟩
          intro a ha hb
          simp only [List.mem_singleton] at hb
          exact hdisj a ha (by rw [hb]; exact List.mem_cons_self c cs)
        · intro x hx
          rcases List.mem_append.mp hx with h | h
          · exact fun hmem => hdisj x h (List.mem_cons_of_mem _ hmem)
          · simp only [List.mem_singleton] at h
            subst h
            exact hcnotcs

lemma greedyKeep_complete (d : ℕ) :
    ∀ (cs kept : List ℕ) (c : ℕ), c ∈ cs → c ∉ greedyKeep d kept cs →
      ∃ k ∈ greedyKeep d kept cs, ((k : ℤ) - (c : ℤ)).natAbs < d := by
  intro cs
  induction cs with
  | nil => intro kept c hc; exact absurd hc (List.not_mem_nil c)
  | cons c' cs ih =>
      intro kept c hc hnot
      by_cases hany : (kept.any fun k => decide (((k : ℤ) - (c' : ℤ)).natAbs < d)) = true
      · rw [greedyKeep, if_pos hany] at hnot ⊢
        rcases List.mem_cons.mp hc with rfl | hmem
        · simp only [List.any_eq_true, decide_eq_true_eq] at hany
          obtain ⟨k, hk, hkd⟩ := hany
          exact ⟨k, kept_mem_greedyKeep d cs kept k hk, hkd⟩
        · exact ih _ _ hmem hnot
      · rw [greedyKeep, if_neg hany] at hnot ⊢
        rcases List.mem_cons.mp hc with rfl | hmem
        · exact absurd (kept_mem_greedyKeep d cs _ c
            (List.mem_append.mpr (Or.inr (List.mem_singleton.mpr rfl)))) hnot
        · exact ih _ _ hmem hnot

lemma isLocalMax_of_mem_findPeaks {α : Type} [LinearOrder α] [Inhabited α]
    (data : List α) (d : ℕ) :
    ∀ i ∈ findPeaks data d, isLocalMax data i = true := by
  intro i hi
  unfold findPeaks at hi
  have h1 := (List.perm_insertionSort (fun a b : ℕ => a ≤ b) _).mem_iff.mp hi
  rcases mem_greedyKeep d _ _ _ h1 with h | h
  · exact absurd h (List.not_mem_nil i)
  · have h2 := (List.perm_insertionSort
      (fun a b => data.getD b default ≤ data.getD a default) (peakCandidates data)).mem_iff.mp h
    exact (List.mem_filter.mp h2).2

/-! ### Helper lemmas about the Gaussian kernel -/

lemma gaussKernel_pos (sigma : ℝ) : ∀ k ∈ gaussKernel sigma, 0 < k := by
  intro k hk
  simp only [gaussKernel, List.mem_map] at hk
  obtain ⟨j, _, rfl⟩ := hk
  exact Real.exp_pos _

lemma gaussKernel_ne_nil (sigma : ℝ) (h : 0 ≤ ⌈4 * sigma⌉) : gaussKernel sigma ≠ [] := by
  simp only [gaussKernel, ne_eq, List.map_eq_nil_iff, List.range_eq_nil]
  omega

lemma gaussKernel_sum_pos (sigma : ℝ) (h : 0 ≤ ⌈4 * sigma⌉) : 0 < (gaussKernel sigma).sum :=
  List.sum_pos _ (gaussKernel_pos sigma) (gaussKernel_ne_nil sigma h)

lemma map_getD_range {α : Type} (l : List α) (d : α) :
    (List.range l.length).map (fun j => l.getD j d) = l := by
  apply List.ext_getElem
  · simp
  · intro i h1 h2
    simp [List.getD_eq_getElem?_getD, List.getElem?_eq_getElem h2]

lemma clampIdx_lt (z : ℤ) (len : ℕ) (h : 0 < len) : clampIdx z len < len := by
  unfold clampIdx
  omega

lemma normKernel_sum (sigma : ℝ) (h : 0 ≤ ⌈4 * sigma⌉) :
    ((gaussKernel sigma).map (fun k => k / (gaussKernel sigma).sum)).sum = 1 := by
  have hs := gaussKernel_sum_pos sigma h
  simp only [div_eq_mul_inv]
  rw [show ((gaussKernel sigma).map fun k => k * ((gaussKernel sigma).sum)⁻¹)
      = ((gaussKernel sigma).map fun k => id k * ((gaussKernel sigma).sum)⁻¹) from rfl,
    List.sum_map_mul_right, List.map_id]
  exact mul_inv_cancel₀ (ne_of_gt hs)

lemma sum_replicate_weighted (n : ℕ) (c : ℝ) (nk : List ℝ) (g : ℕ → ℕ)
    (hg : ∀ j, g j < n) :
    ((List.range nk.length).map (fun (j : ℕ) =>
      (List.replicate n c).getD (g j) 0 * nk.getD j 0)).sum = c * nk.sum := by
  have h1 : ∀ j ∈ List.range nk.length,
      (List.replicate n c).getD (g j) 0 * nk.getD j 0 = c * nk.getD j 0 := by
    intro j _
    congr 1
    rw [List.getD_eq_getElem?_getD, List.getElem?_replicate_of_lt (hg j)]
    rfl
  rw [List.map_congr_left h1]
  have h2 : (List.range nk.length).map (fun (j : ℕ) => c * nk.getD j 0)
      = nk.map (fun x => c * x) := by
    rw [show (fun (j : ℕ) => c * nk.getD j 0)
        = (fun x => c * x) ∘ (fun (j : ℕ) => nk.getD j 0) from rfl]
    rw [← List.map_map, map_getD_range]
  rw [h2, show (fun (x : ℝ) => c * x) = (fun (x : ℝ) => c * id x) from rfl,
    List.sum_map_mul_left, List.map_id]

/-! ### Helper lemmas about the recursive filter clamp -/

lemma lfilterStep_bound (b a x ys : List ℝ) (n : ℕ)
    (h : ∀ v ∈ ys, |v| ≤ 1e9) : ∀ v ∈ lfilterStep b a x ys n, |v| ≤ 1e9 := by
  intro v hv
  simp only [lfilterStep, List.mem_append, List.mem_singleton] at hv
  rcases hv with hv | rfl
  · exact h v hv
  · split
    · norm_num
    · rename_i hle
      exact le_of_not_lt hle

lemma lfilter_bound (b a x : List ℝ) : ∀ v ∈ lfilter b a x, |v| ≤ 1e9 := by
  suffices hgen : ∀ (rs : List ℕ) (acc : List ℝ), (∀ v ∈ acc, |v| ≤ 1e9) →
      ∀ v ∈ rs.foldl (lfilterStep b a x) acc, |v| ≤ 1e9 by
    exact hgen _ [] (by simp)
  intro rs
  induction rs with
  | nil => intro acc hacc; exact hacc
  | cons r rs ih =>
      intro acc hacc
      rw [List.foldl_cons]
      exact ih _ (lfilterStep_bound b a x acc r hacc)

lemma max_le_of_forall (l : List ℝ) (c : ℝ) (hc : 0 ≤ c)
    (h : ∀ v ∈ l, v ≤ c) : _max l ≤ c := by
  cases l with
  | nil => exact hc
  | cons hd t =>
      simp only [_max]
      clear hc
      induction t generalizing hd with
      | nil => exact h hd (List.mem_cons_self _ _)
      | cons t1 t2 ih =>
          rw [List.foldl_cons]
          refine ih _ ?_
          intro v hv
          rcases List.mem_cons.mp hv with rfl | hv
          · exact max_le (h hd (List.mem_cons_self _ _))
              (h t1 (List.mem_cons_of_mem _ (List.mem_cons_self _ _)))
          · exact h v (List.mem_cons_of_mem _ (List.mem_cons_of_mem _ hv))

lemma filtfilt_max_le (x : List ℝ) :
    _max ((filtfilt bCoeffs aCoeffs x).map (fun v => |v|)) ≤ 1e9 := by
  refine max_le_of_forall _ _ (by norm_num) ?_
  intro v hv
  simp only [List.mem_map] at hv
  obtain ⟨w, hw, rfl⟩ := hv
  simp only [filtfilt, List.mem_reverse] at hw
  exact lfilter_bound _ _ _ w hw

lemma gaussKernel_neg_one : gaussKernel (-1 : ℝ) = [] := by
  have hc : ⌈(4 : ℝ) * (-1)⌉ = (-4 : ℤ) := by
    rw [show (4 : ℝ) * (-1) = ((-4 : ℤ) : ℝ) by norm_num]
    exact Int.ceil_intCast _
  simp only [gaussKernel, hc]
  rw [show ((2 * (-4 : ℤ) + 1).toNat) = 0 from rfl]
  simp

lemma gauss_neg_eval : gaussianFilter1d [(5 : ℝ)] (-1) = [0] := by
  simp [gaussianFilter1d, gaussKernel_neg_one]

/-! ### Helper lemmas about the feature-extraction guards -/

lemma mean_replicate (n : ℕ) (c : ℝ) (hn : n ≠ 0) :
    _mean (List.replicate n c) = c := by
  unfold _mean
  rw [List.length_replicate, if_neg hn, List.sum_replicate, nsmul_eq_mul]
  field_simp

lemma std_replicate (n : ℕ) (c : ℝ) : _std (List.replicate n c) = 0 := by
  unfold _std
  rw [List.length_replicate]
  split
  · rfl
  · rename_i h
    rw [mean_replicate n c (by omega)]
    rw [List.map_replicate]
    norm_num

lemma featureVector_length (ppg : List ℝ) (peaks valleys : List ℕ) :
    (featureVector ppg peaks valleys).length = 18 := rfl

lemma errOf_extractFeatures (ppg : List ℝ) :
    errOf (extractFeatures ppg) =
      if ppg.length < 30 then some .signalTooShort
      else if _std ppg < 1e-4 then some .signalFlatline
      else if (findPeaks ppg 10).length < 2 then some .insufficientPeaks
      else if (findPeaks (ppg.map (fun x => -x)) 10).length < 1 then some .noValleys
      else none := by
  by_cases h1 : ppg.length < 30
  · simp [extractFeatures, errOf, h1]
  by_cases h2 : _std ppg < 1e-4
  · simp [extractFeatures, errOf, h1, h2]
  by_cases h3 : (findPeaks ppg 10).length < 2
  · simp [extractFeatures, errOf, h1, h2, h3]
  by_cases h4 : (findPeaks (ppg.map (fun x => -x)) 10).length < 1
  · simp [extractFeatures, errOf, h1, h2, h3, h4]
  · simp [extractFeatures, errOf, h1, h2, h3, h4]

lemma extractFeatures_cases (ppg : List ℝ) :
    (∃ e, extractFeatures ppg = .error e) ∨
      extractFeatures ppg = .ok (featureVector ppg (findPeaks ppg 10)
        (findPeaks (ppg.map (fun x => -x)) 10)) := by
  by_cases h1 : ppg.length < 30
  · exact Or.inl ⟨FeatError.signalTooShort, by simp [extractFeatures, h1]⟩
  by_cases h2 : _std ppg < 1e-4
  · exact Or.inl ⟨FeatError.signalFlatline, by simp [extractFeatures, h1, h2]⟩
  by_cases h3 : (findPeaks ppg 10).length < 2
  · exact Or.inl ⟨FeatError.insufficientPeaks, by simp [extractFeatures, h1, h2, h3]⟩
  by_cases h4 : (findPeaks (ppg.map (fun x => -x)) 10).length < 1
  · exact Or.inl ⟨FeatError.noValleys, by simp [extractFeatures, h1, h2, h3, h4]⟩
  · exact Or.inr (by simp [extractFeatures, h1, h2, h3, h4])

/-! ### Helper lemmas about decimal digit strings -/

lemma digitChar_toNat (d : ℕ) (h : d < 10) : (Nat.digitChar d).toNat = 48 + d := by
  interval_cases d <;> rfl

lemma isDigitChar_digitChar (d : ℕ) (h : d < 10) :
    isDigitChar (Nat.digitChar d) = true := by
  interval_cases d <;> rfl

lemma natDigits_ne_nil (n : ℕ) : natDigits n ≠ [] := by
  rw [natDigits]
  split
  · simp
  · simp

lemma natDigits_all_digits (n : ℕ) : ∀ c ∈ natDigits n, isDigitChar c = true := by
  induction n using Nat.strong_induction_on with
  | _ n ih =>
      rw [natDigits]
      split
      · rename_i h
        intro c hc
        simp only [List.mem_singleton] at hc
        subst hc
        exact isDigitChar_digitChar n h
      · rename_i h
        intro c hc
        rcases List.mem_append.mp hc with hc | hc
        · exact ih (n / 10) (Nat.div_lt_self (by omega) (by omega)) c hc
        · simp only [List.mem_singleton] at hc
          subst hc
          exact isDigitChar_digitChar (n % 10) (Nat.mod_lt _ (by omega))

lemma digitsToNat_append_one (l : List Char) (c : Char) :
    digitsToNat (l ++ [c]) = 10 * digitsToNat l + (c.toNat - 48) := by
  unfold digitsToNat
  rw [List.foldl_append]
  rfl

lemma digitsToNat_natDigits (n : ℕ) : digitsToNat (natDigits n) = n := by
  induction n using Nat.strong_induction_on with
  | _ n ih =>
      rw [natDigits]
      split
      · rename_i h
        simp only [digitsToNat, List.foldl_cons, List.foldl_nil]
        rw [digitChar_toNat n h]
        omega
      · rename_i h
        rw [digitsToNat_append_one,
          ih (n / 10) (Nat.div_lt_self (by omega) (by omega)),
          digitChar_toNat (n % 10) (Nat.mod_lt _ (by omega))]
        omega

lemma takeWhile_eq_self (l : List Char) (h : ∀ c ∈ l, isDigitChar c = true) :
    l.takeWhile isDigitChar = l := by
  induction l with
  | nil => rfl
  | cons c cs ih =>
      rw [List.takeWhile_cons, h c (List.mem_cons_self _ _)]
      simp only [if_true]
      rw [ih (fun x hx => h x (List.mem_cons_of_mem _ hx))]

lemma digitsToNat_zeros (k : ℕ) (l : List Char) :
    digitsToNat (List.replicate k '0' ++ l) = digitsToNat l := by
  induction k with
  | zero => rfl
  | succ k ih =>
      have hrep : List.replicate (k + 1) '0' ++ l
          = '0' :: (List.replicate k '0' ++ l) := by
        simp [List.replicate_succ]
      rw [hrep]
      unfold digitsToNat at ih ⊢
      rw [List.foldl_cons]
      convert ih using 2

lemma natDigits_length_le (k : ℕ) : ∀ n : ℕ, n < 10 ^ (k + 1) →
    (natDigits n).length ≤ k + 1 := by
  induction k with
  | zero =>
      intro n hn
      rw [natDigits]
      norm_num at hn
      rw [dif_pos hn]
      simp
  | succ k ih =>
      intro n hn
      rw [natDigits]
      split
      · simp
      · rename_i h
        rw [List.length_append]
        have hdiv : n / 10 < 10 ^ (k + 1) := by
          rw [pow_succ] at hn
          omega
        have := ih (n / 10) hdiv
        simp only [List.length_singleton]
        omega

lemma parseIntChars_digits_prefix (k : ℕ) (n : ℕ) :
    parseIntChars (List.replicate k '0' ++ natDigits n) = some (n : ℤ) := by
  have hall : ∀ c ∈ List.replicate k '0' ++ natDigits n, isDigitChar c = true := by
    intro c hc
    rcases List.mem_append.mp hc with hc | hc
    · rw [List.eq_of_mem_replicate hc]; rfl
    · exact natDigits_all_digits n c hc
  obtain ⟨c, rest, hcr⟩ : ∃ c rest, List.replicate k '0' ++ natDigits n = c :: rest := by
    cases hd : List.replicate k '0' ++ natDigits n with
    | nil =>
        exfalso
        rcases List.append_eq_nil.mp hd with ⟨-, h2⟩
        exact natDigits_ne_nil n h2
    | cons c rest => exact ⟨c, rest, rfl⟩
  rw [hcr]
  have hcdig : isDigitChar c = true := hall c (hcr ▸ List.mem_cons_self c rest)
  have hcne : ¬ c = '-' := by
    intro hc
    subst hc
    simp [isDigitChar] at hcdig
  rw [parseIntChars]
  rw [if_neg hcne]
  have htake : (c :: rest).takeWhile isDigitChar = c :: rest :=
    takeWhile_eq_self _ (hcr ▸ hall)
  simp only [htake]
  rw [if_neg (by simp)]
  rw [← hcr, digitsToNat_zeros, digitsToNat_natDigits]

lemma parseIntJs_padStart (n : ℕ) :
    parseIntJs (padStart (jsIntToString (n : ℤ)) 4 '0') = some (n : ℤ) := by
  have h1 : jsIntToString (n : ℤ) = String.mk (natDigits n) := by
    rw [jsIntToString, if_neg (by omega)]
    simp
  rw [h1]
  unfold parseIntJs padStart
  simp only [String.length_mk]
  exact parseIntChars_digits_prefix _ n

lemma padStart_length (s : String) (c : Char) :
    (padStart s 4 c).length = max 4 s.length := by
  rcases s with ⟨l⟩
  simp only [padStart, String.length_mk, List.length_append, List.length_replicate]
  omega

lemma generateNextId_cons (sessions : List Session) (h : ℤ) (t : List ℤ)
    (hfm : sessions.filterMap (fun s => parseIntJs s.id) = h :: t) :
    generateNextId sessions = padStart (jsIntToString (t.foldl max h + 1)) 4 '0' := by
  have hne : ¬ sessions.length = 0 := by
    intro h0
    rw [List.length_eq_zero] at h0
    subst h0
    simp at hfm
  rw [generateNextId, if_neg hne, hfm]

/-! ### Claim theorems -/

/-- Claim C1: whenever `extractFeatures` succeeds it returns the fully
populated 18-entry feature vector (in the fixed documented order embodied
by `featureVector`); a run either fails with a named error or returns
exactly that vector — never a partially populated one. -/
theorem extractFeatures_full_vector :
    (∀ ppg : List ℝ, Except.map List.length (extractFeatures ppg)
      = Except.map (fun _ => 18) (extractFeatures ppg)) ∧
    (∀ ppg : List ℝ, (∃ e, extractFeatures ppg = .error e) ∨
      extractFeatures ppg = .ok (featureVector ppg (findPeaks ppg 10)
        (findPeaks (ppg.map (fun x => -x)) 10))) := by
  refine ⟨?_, extractFeatures_cases⟩
  intro ppg
  rcases extractFeatures_cases ppg with ⟨e, he⟩ | hok
  · rw [he]; rfl
  · rw [hok]; rfl

/-- Claim C2: the guards of `extractFeatures` fire in source order —
`SignalTooShort` exactly for length < 30; otherwise `SignalFlatline`
exactly for population standard deviation < 1e-4; otherwise
`InsufficientPeaks` exactly for fewer than 2 peaks at separation 10;
otherwise `NoValleys` exactly for no valley; otherwise no error.  In
particular a 20-sample constant sequence fails with `SignalTooShort`, not
`SignalFlatline`, while a 100-sample constant sequence fails with
`SignalFlatline`. -/
theorem extractFeatures_error_order :
    (∀ ppg : List ℝ,
      (errOf (extractFeatures ppg) = some FeatError.signalTooShort ↔
        ppg.length < 30) ∧
      (errOf (extractFeatures ppg) = some FeatError.signalFlatline ↔
        (¬ ppg.length < 30 ∧ _std ppg < 1e-4)) ∧
      (errOf (extractFeatures ppg) = some FeatError.insufficientPeaks ↔
        (¬ ppg.length < 30 ∧ ¬ _std ppg < 1e-4 ∧
          (findPeaks ppg 10).length < 2)) ∧
      (errOf (extractFeatures ppg) = some FeatError.noValleys ↔
        (¬ ppg.length < 30 ∧ ¬ _std ppg < 1e-4 ∧
          ¬ (findPeaks ppg 10).length < 2 ∧
          (findPeaks (ppg.map (fun x => -x)) 10).length < 1)) ∧
      (errOf (extractFeatures ppg) = none ↔
        (¬ ppg.length < 30 ∧ ¬ _std ppg < 1e-4 ∧
          ¬ (findPeaks ppg 10).length < 2 ∧
          ¬ (findPeaks (ppg.map (fun x => -x)) 10).length < 1))) ∧
    extractFeatures (List.replicate 20 (5 : ℝ)) = .error .signalTooShort ∧
    extractFeatures (List.replicate 100 (5 : ℝ)) = .error .signalFlatline := by
  refine ⟨?_, ?_, ?_⟩
  · intro ppg
    rw [errOf_extractFeatures]
    by_cases h1 : ppg.length < 30
    · simp [h1]
    by_cases h2 : _std ppg < 1e-4
    · simp [h1, h2]
    by_cases h3 : (findPeaks ppg 10).length < 2
    · simp [h1, h2, h3]
    by_cases h4 : (findPeaks (ppg.map (fun x => -x)) 10).length < 1
    · simp [h1, h2, h3, h4]
    · simp [h1, h2, h3, h4]
  · norm_num [extractFeatures]
  · norm_num [extractFeatures, std_replicate]

/-- Witness for claim C2: the too-short iff applied to a 20-sample
constant sequence. -/
theorem extractFeatures_error_order_witness :
    errOf (extractFeatures (List.replicate 20 (5 : ℝ)))
      = some FeatError.signalTooShort :=
  ((extractFeatures_error_order.1 (List.replicate 20 5)).1).mpr
    (by norm_num)

/-- Claim C7: a raw input containing at least one NaN sample is returned
with every NaN replaced by zero and all other samples unchanged, skipping
the bandpass filter, smoothing and trimming (so the output length equals
the input length on this path); an empty input yields an empty output. -/
theorem preprocessPPG_nan_path :
    (∀ raw : List (Option ℝ), raw.any (fun v => v.isNone) = true →
      preprocessPPG raw = raw.map (fun v => v.getD 0) ∧
        (preprocessPPG raw).length = raw.length) ∧
    preprocessPPG [] = [] := by
  constructor
  · intro raw hnan
    have hne : ¬ raw.length = 0 := by
      cases raw with
      | nil => simp at hnan
      | cons h t => simp
    have heq : preprocessPPG raw = raw.map (fun v => v.getD 0) := by
      unfold preprocessPPG
      rw [if_neg hne, if_pos hnan]
    exact ⟨heq, by rw [heq, List.length_map]⟩
  · rfl

/-- Witness for claim C7: on `[1, NaN, 2]` the preprocessor returns
`[1, 0, 2]`. -/
theorem preprocessPPG_nan_path_witness :
    preprocessPPG [some (1 : ℝ), none, some 2] = [1, 0, 2] := by
  have h := (preprocessPPG_nan_path.1 [some (1 : ℝ), none, some 2] (by rfl)).1
  rw [h]
  simp

/-- Claim C6, amended: the stability guard of `preprocessPPG` compares the
maximal magnitude of the zero-phase-filtered sequence with 1e9 and would
revert to the raw sequence (still smoothing and trimming it) if the bound
were exceeded; but `lfilter` already clamps every output sample to
magnitude ≤ 1e9, so for NaN-free input the guard is never triggered and
the preprocessor always continues with the filtered sequence. -/
theorem preprocess_filter_guard :
    (∀ (b a x : List ℝ) (n : ℕ), |(lfilter b a x).getD n 0| ≤ 1e9) ∧
    (∀ x : List ℝ, _max ((filtfilt bCoeffs aCoeffs x).map (fun v => |v|)) ≤ 1e9) ∧
    (∀ raw : List ℝ, preprocessPPG (raw.map some) =
      trimSignal (gaussianFilter1d (filtfilt bCoeffs aCoeffs raw) 2)) := by
  refine ⟨?_, filtfilt_max_le, ?_⟩
  · intro b a x n
    rcases lt_or_ge n (lfilter b a x).length with hn | hn
    · rw [List.getD_eq_getElem?_getD, List.getElem?_eq_getElem hn]
      exact lfilter_bound b a x _ (List.getElem_mem _)
    · rw [List.getD_eq_getElem?_getD, List.getElem?_eq_none (by omega)]
      simp
      norm_num
  · intro raw
    cases raw with
    | nil =>
        have h1 : lfilter bCoeffs aCoeffs [] = [] := by simp [lfilter]
        have h2 : filtfilt bCoeffs aCoeffs [] = [] := by simp [filtfilt, h1]
        simp only [List.map_nil, preprocessPPG, List.length_nil, if_pos]
        rw [h2]
        have h3 : gaussianFilter1d [] 2 = [] := by simp [gaussianFilter1d]
        rw [h3]
        norm_num [trimSignal]
    | cons h t =>
        simp only [preprocessPPG]
        rw [if_neg (by simp), if_neg (by simp)]
        have hx : ((h :: t).map some).map (fun v => v.getD 0) = h :: t := by
          simp [Function.comp_def]
        rw [hx, if_neg (not_lt.mpr (filtfilt_max_le (h :: t)))]

/-- Counterexample for claim C6 as stated: the claim asserts that some
NaN-free input makes the filtered sequence exceed the 1e9 bound so that
the fallback branch is taken; but the per-sample clamp inside `lfilter`
keeps every filtered magnitude at or below 1e9, so no such input exists —
the fallback branch is unreachable in exact arithmetic. -/
theorem preprocess_guard_counterexample :
    ¬ ∃ raw : List ℝ,
      1e9 < _max ((filtfilt bCoeffs aCoeffs raw).map (fun v => |v|)) := by
  rintro ⟨raw, hlt⟩
  exact absurd hlt (not_lt.mpr (filtfilt_max_le raw))

/-- Claim C8, amended: Gaussian smoothing always preserves the length of
its input.  Smoothing a constant sequence returns it unchanged for every
sigma whose kernel is nonempty — every sigma ≠ 0 with `⌈4·sigma⌉ ≥ 0`,
i.e. every sigma > −1/4 except 0 — because the kernel entries are positive
and normalised to sum 1 and edge indices are clamped into range; this
covers sigma = 2 and 5 used by the code.  Sigma = 0 is excluded only
because there the JS source computes `0/0` (NaN) while exact arithmetic
does not; no statement is made about that point.  When `⌈4·sigma⌉ < 0`
(sigma ≤ −1/4) the kernel loop never runs and every output sample is 0,
so constants are not fixed points there (see the counterexample at
sigma = −1). -/
theorem gaussianFilter1d_spec :
    (∀ (data : List ℝ) (sigma : ℝ),
      (gaussianFilter1d data sigma).length = data.length) ∧
    (∀ (n : ℕ) (c : ℝ) (sigma : ℝ), sigma ≠ 0 → 0 ≤ ⌈4 * sigma⌉ →
      gaussianFilter1d (List.replicate n c) sigma = List.replicate n c) ∧
    (∀ (data : List ℝ) (sigma : ℝ), ⌈4 * sigma⌉ < 0 →
      gaussianFilter1d data sigma = List.replicate data.length 0) := by
  refine ⟨?_, ?_, ?_⟩
  · intro data sigma
    simp [gaussianFilter1d]
  · intro n c sigma _hs h
    rcases Nat.eq_zero_or_pos n with rfl | hn
    · simp [gaussianFilter1d]
    · apply List.ext_getElem
      · simp [gaussianFilter1d]
      · intro i h1 h2
        simp only [gaussianFilter1d, List.getElem_map, List.getElem_range,
          List.length_range, List.length_replicate,
          List.getElem_replicate] at h1 h2 ⊢
        rw [sum_replicate_weighted n c _ _
          (fun j => clampIdx_lt _ n hn), normKernel_sum sigma h, mul_one]
  · intro data sigma hneg
    have hker : gaussKernel sigma = [] := by
      simp only [gaussKernel, List.map_eq_nil_iff, List.range_eq_nil]
      omega
    apply List.ext_getElem
    · simp [gaussianFilter1d]
    · intro i h1 h2
      simp [gaussianFilter1d, hker]

/-- Counterexample for claim C8 as stated: at sigma = −1 the kernel is
empty (the loop `for (i = -radius; i <= radius; i++)` never runs), so the
constant sequence `[5]` is smoothed to `[0]`, not to itself — the claim's
"for every sigma" fails. -/
theorem gaussianFilter1d_counterexample :
    gaussianFilter1d [(5 : ℝ)] (-1) ≠ [5] := by
  rw [gauss_neg_eval]
  norm_num

/-- Witness for claim C8: the amended fixed-point statement applied at
sigma = 2 (the value the preprocessor uses) and the constant sequence
`[5, 5, 5]`. -/
theorem gaussianFilter1d_spec_witness :
    gaussianFilter1d (List.replicate 3 (5 : ℝ)) 2 = List.replicate 3 5 :=
  gaussianFilter1d_spec.2.1 3 5 2 (by norm_num)
    (Int.ceil_nonneg (by norm_num))

/-- Claim C3: the peak detector returns indices that are strict interior
local maxima, in strictly ascending order, no two of which are closer than
the minimum separation `d`; every candidate local maximum that is dropped
is blocked by some kept index at distance strictly less than `d` (greedy
suppression, in which higher-amplitude candidates are processed first);
and on `[0,3,1,5,1,4,0]` with `d = 2` it returns `[1,3,5]`. -/
theorem findPeaks_spec :
    (∀ (α : Type) [LinearOrder α] [Inhabited α] (data : List α) (d : ℕ),
      (∀ i ∈ findPeaks data d, isLocalMax data i = true) ∧
      List.Sorted (fun a b : ℕ => a < b) (findPeaks data d) ∧
      (findPeaks data d).Pairwise (FarApart d) ∧
      (∀ i ∈ peakCandidates data, i ∉ findPeaks data d →
        ∃ k ∈ findPeaks data d, ((k : ℤ) - (i : ℤ)).natAbs < d)) ∧
    findPeaks ([0, 3, 1, 5, 1, 4, 0] : List ℚ) 2 = [1, 3, 5] := by
  constructor
  · intro α _ _ data d
    have hsym : ∀ (x y : ℕ), FarApart d x y → FarApart d y x := by
      unfold FarApart; omega
    refine ⟨isLocalMax_of_mem_findPeaks data d, ?_, ?_, ?_⟩
    · have hle : List.Sorted (fun a b : ℕ => a ≤ b) (findPeaks data d) :=
        List.sorted_insertionSort _ _
      have hnd : (findPeaks data d).Nodup := by
        unfold findPeaks
        refine List.Perm.nodup ((List.perm_insertionSort _ _).symm) ?_
        refine greedyKeep_nodup d _ _ ?_ List.nodup_nil (by simp)
        exact List.Perm.nodup ((List.perm_insertionSort _ _).symm)
          ((List.nodup_range _).filter _)
      exact hle.lt_of_le hnd
    · have hgreedy := greedyKeep_pairwise d ((peakCandidates data).insertionSort
        (fun a b => data.getD b default ≤ data.getD a default)) [] List.Pairwise.nil
      have hperm := List.perm_insertionSort (fun a b : ℕ => a ≤ b)
        (greedyKeep d [] ((peakCandidates data).insertionSort
          (fun a b => data.getD b default ≤ data.getD a default)))
      exact (hperm.pairwise_iff (fun {x y} h => hsym x y h)).mpr hgreedy
    · intro i hi hnot
      unfold findPeaks at hnot ⊢
      have hi2 : i ∈ (peakCandidates data).insertionSort
          (fun a b => data.getD b default ≤ data.getD a default) :=
        (List.perm_insertionSort _ _).symm.mem_iff.mp hi
      have hnot2 : i ∉ greedyKeep d [] ((peakCandidates data).insertionSort
          (fun a b => data.getD b default ≤ data.getD a default)) := by
        intro hmem
        exact hnot ((List.perm_insertionSort (fun a b : ℕ => a ≤ b) _).symm.mem_iff.mp hmem)
      obtain ⟨k, hk, hkd⟩ := greedyKeep_complete d _ [] i hi2 hnot2
      exact ⟨k, (List.perm_insertionSort (fun a b : ℕ => a ≤ b) _).mem_iff.mpr hk, hkd⟩
  · decide

/-- Witness for claim C3: index 3 is returned on the concrete example and
the theorem instantiated there certifies it is a strict interior local
maximum. -/
theorem findPeaks_spec_witness :
    3 ∈ findPeaks ([0, 3, 1, 5, 1, 4, 0] : List ℚ) 2 ∧
      isLocalMax ([0, 3, 1, 5, 1, 4, 0] : List ℚ) 3 = true :=
  ⟨by decide, (findPeaks_spec.1 ℚ [0, 3, 1, 5, 1, 4, 0] 2).1 3 (by decide)⟩

/-- Claim C4: for every finite feature vector and finite demographics, the
heuristic estimator `performMathEstimation` returns normally (it is a
total function) with integer-rounded results satisfying
`90 ≤ sbp ≤ 180`, `60 ≤ dbp ≤ 120` and `70 ≤ glucose ≤ 250`. -/
theorem performMathEstimation_in_range :
    ∀ (features : List ℚ) (age height weight : ℚ),
      (90 ≤ (performMathEstimation features age height weight).sbp ∧
        (performMathEstimation features age height weight).sbp ≤ 180) ∧
      (60 ≤ (performMathEstimation features age height weight).dbp ∧
        (performMathEstimation features age height weight).dbp ≤ 120) ∧
      (70 ≤ (performMathEstimation features age height weight).glucose ∧
        (performMathEstimation features age height weight).glucose ≤ 250) := by
  intro f a h w
  simp only [performMathEstimation]
  refine ⟨⟨?_, ?_⟩, ⟨?_, ?_⟩, ⟨?_, ?_⟩⟩
  · exact le_jsRound 90 _ (by push_cast; exact clampQ_lb _ _ _ (by norm_num))
  · exact jsRound_le 180 _ (by push_cast; exact clampQ_ub _ _ _)
  · exact le_jsRound 60 _ (by push_cast; exact clampQ_lb _ _ _ (by norm_num))
  · exact jsRound_le 120 _ (by push_cast; exact clampQ_ub _ _ _)
  · exact le_jsRound 70 _ (by push_cast; exact clampQ_lb _ _ _ (by norm_num))
  · exact jsRound_le 250 _ (by push_cast; exact clampQ_ub _ _ _)

/-- Claim C5: calibrating against a reference triple stores
`offset = reference − raw` per channel and every subsequent raw model
output is displayed as `raw + offset` until the offset is overwritten.
Conjuncts: (1) re-applying a freshly computed offset to the same raw
output reproduces the reference exactly; (2) a model run never changes the
stored offsets (the offset persists until the next calibration);
(3) raw sbp 130 against reference 120 stores offset −10; (4) after that
calibration a later raw sbp of 135 is displayed as 125. -/
theorem calibration_offset_roundtrip :
    (∀ refv raw : Vitals, applyOffsets raw (calibOffsets refv raw) = refv) ∧
    (∀ (s : ModelTabState) (raw : Vitals),
      (stepModelTab s (.modelRun raw)).offsets = s.offsets) ∧
    (calibOffsets ⟨120, 80, 100⟩ ⟨130, 82, 101⟩).sbp = -10 ∧
    (displayedVitals
      (runEvents ⟨⟨0, 0, 0⟩, none⟩
        [.modelRun ⟨130, 82, 101⟩, .calibrateWith ⟨120, 80, 100⟩])
      ⟨135, 85, 105⟩).sbp = 125 := by
  refine ⟨?_, ?_, ?_, ?_⟩
  · intro refv raw
    cases refv; cases raw
    simp only [applyOffsets, calibOffsets, Vitals.mk.injEq]
    refine ⟨by ring, by ring, by ring⟩
  · intro s raw
    rfl
  · norm_num [calibOffsets]
  · norm_num [displayedVitals, runEvents, stepModelTab, applyOffsets, calibOffsets,
      List.foldl]

/-- Claim C10: each of the four features consumed by the heuristic
estimator is silently replaced by a hard-coded default when it is exactly
zero — RI (0) ↦ 0.3, AIx (1) ↦ −0.5, HR (6) ↦ 75, stiffness (13) ↦ 0.1 —
so the estimate on a vector with a zero entry equals the estimate on the
vector with the default written in its place; in particular a stiffness of
0 (the value extraction produces when fewer than five second-derivative
landmarks are found) makes the glucose formula use 0.1 rather than 0. -/
theorem performMathEstimation_zero_defaults :
    ∀ (features : List ℚ) (age height weight : ℚ),
      (features.getD 0 0 = 0 →
        performMathEstimation features age height weight =
          performMathEstimation (features.set 0 0.3) age height weight) ∧
      (features.getD 1 0 = 0 →
        performMathEstimation features age height weight =
          performMathEstimation (features.set 1 (-0.5)) age height weight) ∧
      (features.getD 6 0 = 0 →
        performMathEstimation features age height weight =
          performMathEstimation (features.set 6 75) age height weight) ∧
      (features.getD 13 0 = 0 →
        performMathEstimation features age height weight =
          performMathEstimation (features.set 13 0.1) age height weight) ∧
      (features.getD 13 0 = 0 →
        (performMathEstimation features age height weight).glucose =
          (performMathEstimation (features.set 13 0.1) age height weight).glucose) := by
  intro f a h w
  have h13 : f.getD 13 0 = 0 →
      performMathEstimation f a h w = performMathEstimation (f.set 13 0.1) a h w := by
    intro h0
    simp only [performMathEstimation]
    rw [jsOr_getD_set_self f 13 0.1 h0 (by norm_num),
      getD_set_ne f 13 0 _ (by omega), getD_set_ne f 13 1 _ (by omega),
      getD_set_ne f 13 6 _ (by omega)]
  refine ⟨?_, ?_, ?_, h13, fun h0 => by rw [h13 h0]⟩
  · intro h0
    simp only [performMathEstimation]
    rw [jsOr_getD_set_self f 0 0.3 h0 (by norm_num),
      getD_set_ne f 0 1 _ (by omega), getD_set_ne f 0 6 _ (by omega),
      getD_set_ne f 0 13 _ (by omega)]
  · intro h0
    simp only [performMathEstimation]
    rw [jsOr_getD_set_self f 1 (-0.5) h0 (by norm_num),
      getD_set_ne f 1 0 _ (by omega), getD_set_ne f 1 6 _ (by omega),
      getD_set_ne f 1 13 _ (by omega)]
  · intro h0
    simp only [performMathEstimation]
    rw [jsOr_getD_set_self f 6 75 h0 (by norm_num),
      getD_set_ne f 6 0 _ (by omega), getD_set_ne f 6 1 _ (by omega),
      getD_set_ne f 6 13 _ (by omega)]

/-- Claim C9, amended: the first allocated session id (no sessions, or no
numerically parseable id) is `"0001"`; otherwise, writing `M ≥ 0` for the
maximum numeric id stored, the allocated id parses back to `M + 1`, is
zero-padded to at least four characters, and is exactly four characters
long while `M + 1 ≤ 9999` (beyond that the decimal form is longer than
four digits, so the claim's "4-digit string" fails — see the
counterexample); storing a session under the allocated id makes the next
allocated id parse to `M + 2`, so allocated ids grow strictly. -/
theorem generateNextId_spec :
    generateNextId [] = "0001" ∧
    (∀ sessions : List Session,
      sessions.filterMap (fun s => parseIntJs s.id) = [] →
        generateNextId sessions = "0001") ∧
    (∀ (sessions : List Session) (h : ℤ) (t : List ℤ),
      sessions.filterMap (fun s => parseIntJs s.id) = h :: t →
      0 ≤ t.foldl max h →
      (parseIntJs (generateNextId sessions) = some (t.foldl max h + 1) ∧
       4 ≤ (generateNextId sessions).length ∧
       (t.foldl max h + 1 ≤ 9999 → (generateNextId sessions).length = 4) ∧
       parseIntJs (generateNextId (sessions ++ [⟨generateNextId sessions⟩]))
         = some (t.foldl max h + 2))) := by
  refine ⟨rfl, ?_, ?_⟩
  · intro sessions hfm
    by_cases hlen : sessions.length = 0
    · rw [generateNextId, if_pos hlen]
    · rw [generateNextId, if_neg hlen, hfm]
  · intro sessions h t hfm hM
    have hgen := generateNextId_cons sessions h t hfm
    obtain ⟨N, hN⟩ : ∃ N : ℕ, t.foldl max h + 1 = (N : ℤ) :=
      ⟨(t.foldl max h + 1).toNat, by omega⟩
    have hparse : parseIntJs (generateNextId sessions)
        = some (t.foldl max h + 1) := by
      rw [hgen, hN, parseIntJs_padStart]
    refine ⟨hparse, ?_, ?_, ?_⟩
    · rw [hgen, padStart_length]
      omega
    · intro hle
      rw [hgen, padStart_length]
      have hlen : (jsIntToString (t.foldl max h + 1)).length ≤ 4 := by
        rw [hN, jsIntToString, if_neg (by omega), String.length_mk,
          show ((N : ℤ)).toNat = N from rfl]
        exact natDigits_length_le 3 N (by norm_num; omega)
      omega
    · have hfm2 : (sessions ++ [Session.mk (generateNextId sessions)]).filterMap
          (fun s => parseIntJs s.id) = h :: (t ++ [t.foldl max h + 1]) := by
        rw [List.filterMap_append, hfm]
        simp [hparse]
      have hfold : (t ++ [t.foldl max h + 1]).foldl max h = t.foldl max h + 1 := by
        rw [List.foldl_append, List.foldl_cons, List.foldl_nil]
        omega
      rw [generateNextId_cons _ h (t ++ [t.foldl max h + 1]) hfm2, hfold]
      obtain ⟨N2, hN2⟩ : ∃ N2 : ℕ, t.foldl max h + 1 + 1 = (N2 : ℤ) :=
        ⟨(t.foldl max h + 2).toNat, by omega⟩
      rw [hN2, parseIntJs_padStart, ← hN2]
      congr 1
      omega

/-- Witness for claim C9: from the single stored session `"0001"` the next
allocated id parses to 2 and is four characters long. -/
theorem generateNextId_spec_witness :
    parseIntJs (generateNextId [⟨"0001"⟩]) = some 2 ∧
      (generateNextId [⟨"0001"⟩]).length = 4 := by
  have h := generateNextId_spec.2.2 [⟨"0001"⟩] 1 [] (by decide) (by decide)
  exact ⟨by simpa using h.1, h.2.2.1 (by decide)⟩

/-- Counterexample for claim C9 as stated: with a stored maximum id of
9999 the next allocated id is `"10000"`, which is five characters, not a
zero-padded 4-digit string. -/
theorem generateNextId_counterexample :
    generateNextId [⟨"9999"⟩] = "10000" ∧
      (generateNextId [⟨"9999"⟩]).length ≠ 4 := by
  have hgen := generateNextId_cons [⟨"9999"⟩] 9999 [] (by decide)
  have heval : jsIntToString ((([] : List ℤ).foldl max 9999) + 1) = "10000" := by
    rw [show (([] : List ℤ).foldl max 9999) + 1 = (10000 : ℤ) by norm_num]
    rw [jsIntToString, if_neg (by omega),
      show (10000 : ℤ).toNat = 10000 from rfl,
      show natDigits 10000 = ['1', '0', '0', '0', '0'] by
        simp [natDigits, Nat.digitChar]]
  have hfin : generateNextId [⟨"9999"⟩] = padStart "10000" 4 '0' := by
    rw [hgen, heval]
  have hpad : padStart "10000" 4 '0' = "10000" := by decide
  rw [hfin, hpad]
  exact ⟨rfl, by decide⟩

/-- Witness for claim C10: the all-zero 18-entry feature vector has a zero
stiffness entry, and the theorem instantiated there equates the estimate
with the estimate on the vector whose stiffness slot holds the
default 0.1. -/
theorem performMathEstimation_zero_defaults_witness :
    (List.replicate 18 (0 : ℚ)).getD 13 0 = 0 ∧
      performMathEstimation (List.replicate 18 (0 : ℚ)) 30 170 70 =
        performMathEstimation ((List.replicate 18 (0 : ℚ)).set 13 0.1) 30 170 70 :=
  ⟨by simp, (performMathEstimation_zero_defaults (List.replicate 18 (0 : ℚ))
      30 170 70).2.2.2.1 (by simp)⟩

end PPG
